import Mathlib

/-!
Verification of `jevents/examples/jestat.c` (a "poor man's perf stat" built
on the jevents counter-management library) against its natural-language
specification.

The visible source is the CLI consumer `jestat.c`.  The counter-management
library it calls (`alloc_eventlist`, `parse_events`, `setup_events_cpumask`,
`read_all_events`, `event_scaled_value`, `print_event_list_attr`) is not part
of the visible material; where a property depends on it, the library is
modelled from the specification's usage contract and marked as such in the
doc comment.

The embedding has two layers:

* data layer: `Handle`, `event`, `eventlist` mirror `struct efd`,
  `struct event`, `struct eventlist`; `print_data_aggr`,
  `print_data_no_aggr`, `print_data` mirror the printing functions of
  `jestat.c` (lines 52-91), producing the printed rows as data instead of
  writing to stdout;
* control layer: `runMain` mirrors the control flow of `main`
  (lines 147-252) as a pure function from the parsed command line and an
  oracle for the environment (library results, fork success, alarm ticks,
  kernel counter values) to the trace of externally visible actions plus
  the process exit status.
-/

namespace Jestat

/-- One per-CPU counter handle of an event: mirrors the per-CPU slot
`e->efd[i]` of the jevents event structure.  `fd` is the perf file
descriptor; a negative `fd` is the "not applicable" sentinel (e.g. a CPU
excluded by the cpumask).  `raw`, `enabled`, `running` are the last-read
snapshot `val[0..2]` of the counter: raw count, enabled time, running
time. -/
structure Handle where
  fd : Int
  raw : Nat
  enabled : Nat
  running : Nat
deriving Repr, DecidableEq

/-- One measured event: mirrors `struct event`.  `event` is the textual
event name; `extra_name` mirrors `e->extra.name` (an optional
human-readable alias); `efd` holds one `Handle` per CPU. -/
structure event where
  event : String
  extra_name : Option String
  efd : List Handle
deriving Repr, DecidableEq

/-- The event list: mirrors `struct eventlist` with its `eventlist` chain
and `num_cpus` field. -/
structure eventlist where
  eventlist : List event
  num_cpus : Nat
deriving Repr, DecidableEq

/-- The name printed for an event: `e->extra.name ? e->extra.name :
e->event` (jestat.c lines 63 and 80). -/
def ename (e : event) : String :=
  e.extra_name.getD e.event

/-- Modelled from the spec: `event_scaled_value` of the jevents library is
not in the visible material.  Per the specification the scaled value is
`raw_count * (enabled_time / running_time)` when `running_time > 0`,
truncated to an unsigned integer (exact rational arithmetic truncated,
i.e. `raw * enabled / running` in natural-number division); when
`running_time = 0` the snapshot has not been scheduled (or never read) and
the raw count is reported unscaled, which is `0` for a never-read handle. -/
def scaled_value (h : Handle) : Nat :=
  if 0 < h.running then h.raw * h.enabled / h.running else h.raw

/-- `event_scaled_value(e, i)`: scaled value of event `e` on CPU index
`i`.  Out-of-range indices (impossible in a well-formed event list, where
`efd` has `num_cpus` entries) yield 0. -/
def event_scaled_value (e : event) (i : Nat) : Nat :=
  match e.efd[i]? with
  | some h => scaled_value h
  | none => 0

/-- The aggregate value of one event: the inner loop of `print_data_aggr`
(jestat.c lines 58-60), `v += event_scaled_value(e, i)` for
`0 <= i < el->num_cpus`. -/
def aggr_value (e : event) (ncpus : Nat) : Nat :=
  ((List.range ncpus).map (fun i => event_scaled_value e i)).sum

/-- `print_data_aggr` (jestat.c lines 52-65): for every event in list
order, one row holding the printed name and the aggregated value summed
over all CPU indices.  (The timestamp column, driven by out-of-scope
wall-clock timing, is not part of the data model.) -/
def print_data_aggr (el : eventlist) : List (String × Nat) :=
  el.eventlist.map (fun e => (ename e, aggr_value e el.num_cpus))

/-- `print_data_no_aggr` (jestat.c lines 67-83): for every event and every
CPU index `i < num_cpus`, a row `(i, name, scaled value)` — except that a
handle with `fd < 0` is skipped (`continue`, line 75-76). -/
def print_data_no_aggr (el : eventlist) : List (Nat × String × Nat) :=
  el.eventlist.flatMap (fun e =>
    (List.range el.num_cpus).filterMap (fun i =>
      match e.efd[i]? with
      | some h => if h.fd < 0 then none else some (i, ename e, scaled_value h)
      | none => none))

/-- The printed output of one `print_data` call: either aggregate rows or
per-CPU rows. -/
inductive PrintOut where
  | aggr (rows : List (String × Nat))
  | noaggr (rows : List (Nat × String × Nat))
deriving Repr, DecidableEq

/-- `print_data` (jestat.c lines 85-91): dispatch on `no_aggr`. -/
def print_data (el : eventlist) (no_aggr : Bool) : PrintOut :=
  if no_aggr then .noaggr (print_data_no_aggr el) else .aggr (print_data_aggr el)

/-- Modelled from the spec: the read step of `read_all_events` on a single
handle.  The engine reads, for every handle not marked "not applicable",
the current raw count, enabled time and running time, replacing the
previous snapshot; a sentinel handle (`fd < 0`) is left untouched.  `k` is
the kernel's current `(raw, enabled, running)` triple for this handle. -/
def read_handle (k : Nat × Nat × Nat) (h : Handle) : Handle :=
  if h.fd < 0 then h else { h with raw := k.1, enabled := k.2.1, running := k.2.2 }

/-- Read all handles of one event; `kf c` is the kernel triple for CPU
index `c`. -/
def read_event_handles (kf : Nat → Nat × Nat × Nat) : Nat → List Handle → List Handle
  | _, [] => []
  | c, h :: hs => read_handle (kf c) h :: read_event_handles kf (c + 1) hs

/-- Read the handles of every event in the list; `kern ei ci` is the
kernel triple for event index `ei`, CPU index `ci`. -/
def read_events (kern : Nat → Nat → Nat × Nat × Nat) : Nat → List event → List event
  | _, [] => []
  | ei, e :: es =>
      { e with efd := read_event_handles (kern ei) 0 e.efd } :: read_events kern (ei + 1) es

/-- Modelled from the spec: `read_all_events` of the jevents library is not
in the visible material.  Per the specification it reads, for every handle
not marked "not applicable", the current raw count, enabled time and
running time, replacing the previous snapshot; sentinel handles are
skipped.  `kern` is the kernel's counter state at the moment of the
read. -/
def read_all_events (kern : Nat → Nat → Nat × Nat × Nat) (el : eventlist) : eventlist :=
  { el with eventlist := read_events kern 0 el.eventlist }

/-- The valid (applicable) handles of an event: those with `fd ≥ 0`. -/
def valid_handles (e : event) : List Handle :=
  e.efd.filter (fun h => 0 ≤ h.fd)

/-- Sum of the scaled values of an event over its valid handles only. -/
def validSum (e : event) : Nat :=
  ((valid_handles e).map scaled_value).sum

/-- A well-formed event list: every event has exactly `num_cpus` per-CPU
handles (guaranteed by the attachment layer). -/
def WF (el : eventlist) : Prop :=
  ∀ e ∈ el.eventlist, e.efd.length = el.num_cpus

/-- Every "not applicable" handle carries a zero snapshot.  This holds
throughout a run: handles are allocated zeroed and `read_all_events` never
touches a sentinel handle. -/
def InvalidZero (el : eventlist) : Prop :=
  ∀ e ∈ el.eventlist, ∀ h ∈ e.efd, h.fd < 0 → h.raw = 0 ∧ h.running = 0

/-! ## The control flow of `main` (jestat.c lines 147-252)

`main` is modelled as a pure function of the parsed command line (the
sequence of options recognised by `getopt_long` plus whether a program
argument follows) and an environment oracle that supplies the results of
the external calls: the event-spec parser, `fork`, `setup_events_cpumask`
and the kernel counter values at each read.  The result is the trace of
externally visible actions together with the process exit status. -/

/-- One command-line option as dispatched by the `getopt_long` loop
(jestat.c lines 165-190).  `oe`/`oC` carry their string argument, `oI`
carries the parsed integer interval; `obad` is any unrecognised option
(the `default:` branch, which calls `usage()`). -/
inductive Opt where
  | oa
  | oe (arg : String)
  | oI (n : Nat)
  | oC (mask : String)
  | oA
  | ov
  | obad
deriving Repr, DecidableEq

/-- An externally visible action of a run. -/
inductive Action where
  | parseEvents (arg : String)
  | usage
  | message (s : String)
  | forkCall
  | setupEvents (ok : Bool)
  | printAttr
  | readAll
  | printed (out : PrintOut)
deriving Repr, DecidableEq

/-- The parsed event definition a spec token resolves to: the event name
plus the optional human-readable alias stored in `extra.name`. -/
def EventDef := String × Option String
deriving instance Repr, DecidableEq for EventDef

/-- The environment oracle: results of the external calls `main` makes.

Modelled from the spec where the jevents library is not visible:
`parse s` is the list of event definitions `parse_events` appends for the
spec string `s`, or `none` when `parse_events` returns a negative value;
`ncpus` and `fds` describe the handle table built by a successful
`setup_events_cpumask` (number of CPU slots, and the file descriptor per
event index × CPU index, negative for a masked-out "not applicable"
target); `setup_ok` is whether `setup_events_cpumask` returns ≥ 0;
`fork_ok` is whether `fork` succeeds in the parent; `ticks` is the number
of loop iterations in which `waitpid`/`pause` was interrupted by the
interval alarm (`ret < 0 && gotalarm`); `kern r ei ci` is the kernel's
`(raw, enabled, running)` triple for event `ei`, CPU `ci` at the `r`-th
`read_all_events` call. -/
structure Oracles where
  parse : String → Option (List EventDef)
  ncpus : Nat
  fds : Nat → Nat → Int
  setup_ok : Bool
  fork_ok : Bool
  ticks : Nat
  kern : Nat → Nat → Nat → Nat × Nat × Nat

/-- The mutable state of `main` accumulated by the option loop. -/
structure OptState where
  el : List EventDef
  events : Option String
  measure_all : Bool
  interval : Nat
  cpumask : Option String
  no_aggr : Bool
  verbose : Nat
deriving Repr, DecidableEq

/-- The default event specification (jestat.c line 149). -/
def defaultEvents : String :=
  "instructions,cpu-cycles,cache-misses,cache-references"

/-- The state of `main`'s locals on entry to the option loop
(jestat.c lines 149-163). -/
def initState : OptState :=
  { el := [], events := some defaultEvents, measure_all := false,
    interval := 0, cpumask := none, no_aggr := false, verbose := 0 }

/-- The `getopt_long` loop (jestat.c lines 165-190).  Returns the trace of
actions it emits and either the state on normal loop exit, or `none` when
the loop terminated the process (a failing `parse_events` on `-e`, line
168-169, or `usage()` on an unrecognised option, line 188). -/
def processOpts (g : Oracles) : List Opt → OptState → List Action × Option OptState
  | [], st => ([], some st)
  | .oe arg :: rest, st =>
    match g.parse arg with
    | none => ([.parseEvents arg], none)
    | some evs =>
      let r := processOpts g rest { st with el := st.el ++ evs, events := none }
      (.parseEvents arg :: r.1, r.2)
  | .oa :: rest, st => processOpts g rest { st with measure_all := true }
  | .oI n :: rest, st => processOpts g rest { st with interval := n }
  | .oC m :: rest, st => processOpts g rest { st with cpumask := some m }
  | .oA :: rest, st => processOpts g rest { st with no_aggr := true }
  | .ov :: rest, st => processOpts g rest { st with verbose := st.verbose + 1 }
  | .obad :: _, _ => ([.usage], none)

/-- Modelled from the spec: the handle table a successful
`setup_events_cpumask` attaches to the parsed event list.  One handle per
(event, CPU index); a masked-out CPU gets a negative sentinel descriptor;
every snapshot starts zeroed (nothing has been read yet). -/
def attach (g : Oracles) (defs : List EventDef) : eventlist :=
  { num_cpus := g.ncpus,
    eventlist := (List.range defs.length).filterMap (fun ei =>
      match defs[ei]? with
      | some d => some { event := d.1, extra_name := d.2,
                         efd := (List.range g.ncpus).map (fun ci =>
                           { fd := g.fds ei ci, raw := 0, enabled := 0, running := 0 }) }
      | none => none) }

/-- The measurement loop of `main` (jestat.c lines 233-250): `t` alarm
ticks each trigger `cont_measure` (lines 134-145: `read_all_events` then
`print_data`), after which the loop exits and the final
`read_all_events`/`print_data` pair runs (lines 247-250).  `r` counts the
reads issued so far. -/
def measureLoop (g : Oracles) (na : Bool) : Nat → Nat → eventlist → List Action × eventlist
  | 0, r, el =>
    let el2 := read_all_events (g.kern r) el
    ([.readAll, .printed (print_data el2 na)], el2)
  | t + 1, r, el =>
    let el2 := read_all_events (g.kern r) el
    let rest := measureLoop g na t (r + 1) el2
    (.readAll :: .printed (print_data el2 na) :: rest.1, rest.2)

/-- The tail of `main` after the event specification is settled
(jestat.c lines 197-251): fork, attach, optional verbose attribute dump,
then the measurement loop.  `tr` is the trace accumulated so far. -/
def runTail (g : Oracles) (tr : List Action) (st : OptState) : List Action × Nat :=
  if !g.fork_ok then (tr ++ [.forkCall], 1)
  else if !g.setup_ok then (tr ++ [.forkCall, .setupEvents false], 1)
  else
    let tr2 := tr ++ [.forkCall, .setupEvents true]
        ++ (if 0 < st.verbose then [.printAttr] else [])
    let m := measureLoop g st.no_aggr g.ticks 0 (attach g st.el)
    (tr2 ++ m.1, 0)

/-- `main` (jestat.c lines 147-252) as a trace function.  `hasProg` is
whether a program argument follows the options (`av[optind] != NULL`).
After the option loop: the "Specify command or -a" check (lines 191-194)
runs first, then the default event specification is parsed if no `-e` was
given (lines 195-196), then the rest of the run. -/
def runMain (g : Oracles) (opts : List Opt) (hasProg : Bool) : List Action × Nat :=
  let p := processOpts g opts initState
  match p.2 with
  | none => (p.1, 1)
  | some st =>
    if !hasProg && !st.measure_all then
      (p.1 ++ [.message "Specify command or -a"], 1)
    else
      match st.events with
      | some ev =>
        match g.parse ev with
        | none => (p.1 ++ [.parseEvents ev], 1)
        | some evs => runTail g (p.1 ++ [.parseEvents ev]) { st with el := st.el ++ evs, events := none }
      | none => runTail g p.1 st

/-! ## Helper lemmas -/

lemma scaled_value_of_raw_zero (h : Handle) (hz : h.raw = 0) : scaled_value h = 0 := by
  unfold scaled_value
  split <;> simp [hz]

lemma event_scaled_value_eq (e : event) (i : Nat) (h : Handle) (hi : e.efd[i]? = some h) :
    event_scaled_value e i = scaled_value h := by
  unfold event_scaled_value
  rw [hi]

/-- Summing `event_scaled_value` over all indices below `efd.length` is
summing `scaled_value` over the handles. -/
lemma aggr_value_eq_sum (e : event) :
    aggr_value e e.efd.length = (e.efd.map scaled_value).sum := by
  unfold aggr_value
  unfold event_scaled_value
  suffices hgen : ∀ (l : List Handle),
      ((List.range l.length).map (fun i => match l[i]? with
        | some h => scaled_value h
        | none => 0)).sum = (l.map scaled_value).sum by
    exact hgen e.efd
  intro l
  induction l with
  | nil => simp
  | cons h t ih =>
    rw [List.length_cons, List.range_succ_eq_map]
    simp only [List.map_cons, List.map_map, List.sum_cons]
    have hcomp : ((fun i => match (h :: t)[i]? with
        | some h => scaled_value h
        | none => 0) ∘ Nat.succ) = (fun i => match t[i]? with
        | some h => scaled_value h
        | none => 0) := by
      funext i
      simp [Function.comp, List.getElem?_cons_succ]
    rw [hcomp, ih]
    simp [List.getElem?_cons_zero]

/-- Dropping the handles whose snapshot scales to zero from the sum:
sentinel handles (zero snapshot) contribute nothing. -/
lemma sum_scaled_filter (l : List Handle) (hz : ∀ h ∈ l, h.fd < 0 → h.raw = 0) :
    (l.map scaled_value).sum = ((l.filter (fun h => 0 ≤ h.fd)).map scaled_value).sum := by
  induction l with
  | nil => simp
  | cons h t ih =>
    have ht : ∀ x ∈ t, x.fd < 0 → x.raw = 0 := fun x hx => hz x (List.mem_cons_of_mem h hx)
    by_cases hfd : 0 ≤ h.fd
    · rw [List.filter_cons_of_pos (by simpa using hfd)]
      simp [ih ht]
    · rw [List.filter_cons_of_neg (by simpa using hfd)]
      have hraw : h.raw = 0 := hz h (List.mem_cons_self h t) (by omega)
      simp [scaled_value_of_raw_zero h hraw, ih ht]

/-- On an event whose sentinel handles have zero snapshots, the aggregate
loop value equals the sum over the valid handles only. -/
lemma aggr_value_eq_validSum (e : event) (n : Nat) (hlen : e.efd.length = n)
    (hz : ∀ h ∈ e.efd, h.fd < 0 → h.raw = 0) :
    aggr_value e n = validSum e := by
  subst hlen
  rw [aggr_value_eq_sum, sum_scaled_filter e.efd hz]
  rfl

lemma read_handle_idem (k : Nat × Nat × Nat) (h : Handle) :
    read_handle k (read_handle k h) = read_handle k h := by
  unfold read_handle
  by_cases hfd : h.fd < 0 <;> simp [hfd]

lemma read_event_handles_idem (kf : Nat → Nat × Nat × Nat) (c : Nat) (l : List Handle) :
    read_event_handles kf c (read_event_handles kf c l) = read_event_handles kf c l := by
  induction l generalizing c with
  | nil => rfl
  | cons h t ih => simp [read_event_handles, read_handle_idem, ih]

lemma read_events_idem (kern : Nat → Nat → Nat × Nat × Nat) (ei : Nat) (es : List event) :
    read_events kern ei (read_events kern ei es) = read_events kern ei es := by
  induction es generalizing ei with
  | nil => rfl
  | cons e es ih => simp [read_events, read_event_handles_idem, ih]

/-! ## Example data used by witnesses -/

/-- A concrete attached event list: CPU 0 valid, CPU 1 masked out for the
first event; the second event has no valid target at all. -/
def elEx : eventlist :=
  { num_cpus := 2,
    eventlist :=
      [ { event := "instructions", extra_name := none,
          efd := [⟨0, 6, 10, 5⟩, ⟨-1, 0, 0, 0⟩] },
        { event := "cpu-cycles", extra_name := some "cycles",
          efd := [⟨-1, 0, 0, 0⟩, ⟨-1, 0, 0, 0⟩] } ] }

/-- A concrete counter handle: raw 100, enabled 10, running 5 (counter
scheduled half the time). -/
def hEx : Handle := ⟨0, 100, 10, 5⟩

/-! ## Claims -/

/-- C1: In aggregate mode, for every event in the event list, the value
printed equals the sum of the per-CPU scaled values over the valid targets
only, and when the number of valid per-CPU values is 0 the reported value
is 0 rather than an error. -/
theorem jestat_aggr_sum_valid (el : eventlist) (hwf : WF el) (hz : InvalidZero el) :
    print_data_aggr el = el.eventlist.map (fun e => (ename e, validSum e)) ∧
    ∀ e ∈ el.eventlist, valid_handles e = [] → validSum e = 0 := by
  constructor
  · unfold print_data_aggr
    apply List.map_congr_left
    intro e he
    rw [aggr_value_eq_validSum e el.num_cpus (hwf e he)
      (fun h hh hfd => (hz e he h hh hfd).1)]
  · intro e _ hv
    unfold validSum
    rw [hv]
    rfl

theorem jestat_aggr_sum_valid_w :
    WF elEx ∧ InvalidZero elEx ∧
      (print_data_aggr elEx = elEx.eventlist.map (fun e => (ename e, validSum e)) ∧
       ∀ e ∈ elEx.eventlist, valid_handles e = [] → validSum e = 0) :=
  ⟨by unfold WF; decide, by unfold InvalidZero; decide,
    jestat_aggr_sum_valid elEx (by unfold WF; decide) (by unfold InvalidZero; decide)⟩

/-- C2: a handle carrying the "not applicable" sentinel (`fd < 0`) is
never printed as a numeric value: every row of the no-aggregate output
comes from a handle with `fd ≥ 0`, and in aggregate mode the printed sum
equals the sum over the valid handles only (a sentinel handle, whose
snapshot is never written by the read engine, contributes nothing). -/
theorem jestat_sentinel_skipped (el : eventlist) (hwf : WF el) (hz : InvalidZero el) :
    (∀ r ∈ print_data_no_aggr el, ∃ e ∈ el.eventlist, ∃ h,
        e.efd[r.1]? = some h ∧ 0 ≤ h.fd ∧ r.2.2 = scaled_value h) ∧
    ∀ e ∈ el.eventlist, aggr_value e el.num_cpus = validSum e := by
  constructor
  · intro r hr
    unfold print_data_no_aggr at hr
    rw [List.mem_flatMap] at hr
    obtain ⟨e, he, hr⟩ := hr
    rw [List.mem_filterMap] at hr
    obtain ⟨i, _, heq⟩ := hr
    refine ⟨e, he, ?_⟩
    split at heq
    · rename_i h hg
      by_cases hfd : h.fd < 0
      · rw [if_pos hfd] at heq
        simp at heq
      · rw [if_neg hfd] at heq
        obtain rfl : (i, ename e, scaled_value h) = r := by simpa using heq
        exact ⟨h, hg, Int.not_lt.mp hfd, rfl⟩
    · simp at heq
  · intro e he
    exact aggr_value_eq_validSum e el.num_cpus (hwf e he)
      (fun h hh hfd => (hz e he h hh hfd).1)

theorem jestat_sentinel_skipped_w :
    WF elEx ∧ InvalidZero elEx ∧
      ((∀ r ∈ print_data_no_aggr elEx, ∃ e ∈ elEx.eventlist, ∃ h,
          e.efd[r.1]? = some h ∧ 0 ≤ h.fd ∧ r.2.2 = scaled_value h) ∧
       ∀ e ∈ elEx.eventlist, aggr_value e elEx.num_cpus = validSum e) :=
  ⟨by unfold WF; decide, by unfold InvalidZero; decide,
    jestat_sentinel_skipped elEx (by unfold WF; decide) (by unfold InvalidZero; decide)⟩

/-- C3: for a handle with `running > 0`, `event_scaled_value` returns
`raw * (enabled / running)` truncated to an unsigned integer; when
`enabled = running` the scaled count equals the raw count exactly, and
when `running = enabled / 2` (i.e. `enabled = 2 * running`) and
`raw = 100`, the scaled count is 200. -/
theorem jestat_scaled_value_spec (h : Handle) (hrun : 0 < h.running) :
    scaled_value h = h.raw * h.enabled / h.running ∧
    (h.enabled = h.running → scaled_value h = h.raw) ∧
    (h.enabled = 2 * h.running → h.raw = 100 → scaled_value h = 200) := by
  have hs : scaled_value h = h.raw * h.enabled / h.running := by
    unfold scaled_value
    rw [if_pos hrun]
  refine ⟨hs, ?_, ?_⟩
  · intro heq
    rw [hs, heq, Nat.mul_div_cancel _ hrun]
  · intro he hr
    rw [hs, hr, he, ← Nat.mul_assoc, Nat.mul_div_cancel _ hrun]

theorem jestat_scaled_value_spec_w :
    0 < hEx.running ∧
      (scaled_value hEx = hEx.raw * hEx.enabled / hEx.running ∧
       (hEx.enabled = hEx.running → scaled_value hEx = hEx.raw) ∧
       (hEx.enabled = 2 * hEx.running → hEx.raw = 100 → scaled_value hEx = 200)) :=
  ⟨by decide, jestat_scaled_value_spec hEx (by decide)⟩

/-- C7: calling the read pass twice on the same event list without the
underlying counters advancing yields the same event list, hence identical
scaled values and identical printed data both times — each read overwrites
the previous per-handle snapshot, with no historical buffering. -/
theorem jestat_read_idempotent (k : Nat → Nat → Nat × Nat × Nat) (el : eventlist) (na : Bool) :
    read_all_events k (read_all_events k el) = read_all_events k el ∧
    print_data (read_all_events k (read_all_events k el)) na =
      print_data (read_all_events k el) na := by
  have hidem : read_all_events k (read_all_events k el) = read_all_events k el := by
    unfold read_all_events
    simp [read_events_idem]
  exact ⟨hidem, by rw [hidem]⟩

/-! ## Control-flow lemmas -/

/-- Every action emitted by the option loop is a parse call or the usage
message. -/
lemma processOpts_actions (g : Oracles) :
    ∀ (opts : List Opt) (st : OptState),
      ∀ a ∈ (processOpts g opts st).1, (∃ s, a = Action.parseEvents s) ∨ a = Action.usage := by
  intro opts
  induction opts with
  | nil =>
    intro st a ha
    simp [processOpts] at ha
  | cons o rest ih =>
    intro st a ha
    cases o with
    | oe arg =>
      simp only [processOpts] at ha
      cases hp : g.parse arg with
      | none =>
        rw [hp] at ha
        simp at ha
        exact Or.inl ⟨arg, ha⟩
      | some evs =>
        rw [hp] at ha
        simp at ha
        rcases ha with rfl | ha
        · exact Or.inl ⟨arg, rfl⟩
        · exact ih _ a ha
    | oa => simp only [processOpts] at ha; exact ih _ a ha
    | oI n => simp only [processOpts] at ha; exact ih _ a ha
    | oC m => simp only [processOpts] at ha; exact ih _ a ha
    | oA => simp only [processOpts] at ha; exact ih _ a ha
    | ov => simp only [processOpts] at ha; exact ih _ a ha
    | obad =>
      simp only [processOpts] at ha
      simp at ha
      exact Or.inr ha

/-- When the option loop completes normally, every `-e` argument it parsed
was accepted by the parser. -/
lemma processOpts_parses_ok (g : Oracles) :
    ∀ (opts : List Opt) (st st' : OptState),
      (processOpts g opts st).2 = some st' →
      ∀ s, Action.parseEvents s ∈ (processOpts g opts st).1 → (g.parse s).isSome := by
  intro opts
  induction opts with
  | nil =>
    intro st st' _ s hs
    simp [processOpts] at hs
  | cons o rest ih =>
    intro st st' hres s hs
    cases o with
    | oe arg =>
      simp only [processOpts] at hres hs
      cases hp : g.parse arg with
      | none =>
        rw [hp] at hres
        simp at hres
      | some evs =>
        rw [hp] at hres hs
        simp at hres hs
        rcases hs with rfl | hs
        · rw [hp]; rfl
        · exact ih _ st' hres s hs
    | oa =>
      simp only [processOpts] at hres hs
      exact ih _ st' hres s hs
    | oI n =>
      simp only [processOpts] at hres hs
      exact ih _ st' hres s hs
    | oC m =>
      simp only [processOpts] at hres hs
      exact ih _ st' hres s hs
    | oA =>
      simp only [processOpts] at hres hs
      exact ih _ st' hres s hs
    | ov =>
      simp only [processOpts] at hres hs
      exact ih _ st' hres s hs
    | obad =>
      simp only [processOpts] at hres
      simp at hres

/-- Every action of the measurement loop is a read or a data print. -/
lemma measureLoop_actions (g : Oracles) (na : Bool) :
    ∀ (t r : Nat) (el : eventlist),
      ∀ a ∈ (measureLoop g na t r el).1, a = Action.readAll ∨ ∃ o, a = Action.printed o := by
  intro t
  induction t with
  | zero =>
    intro r el a ha
    simp [measureLoop] at ha
    rcases ha with rfl | rfl
    · exact Or.inl rfl
    · exact Or.inr ⟨_, rfl⟩
  | succ t ih =>
    intro r el a ha
    simp only [measureLoop] at ha
    simp at ha
    rcases ha with rfl | rfl | ha
    · exact Or.inl rfl
    · exact Or.inr ⟨_, rfl⟩
    · exact ih _ _ a ha

lemma runTail_fork_fail (g : Oracles) (tr : List Action) (st : OptState)
    (h : g.fork_ok = false) :
    runTail g tr st = (tr ++ [.forkCall], 1) := by
  simp [runTail, h]

lemma runTail_setup_fail (g : Oracles) (tr : List Action) (st : OptState)
    (hf : g.fork_ok = true) (h : g.setup_ok = false) :
    runTail g tr st = (tr ++ [.forkCall, .setupEvents false], 1) := by
  simp [runTail, hf, h]

lemma runTail_ok (g : Oracles) (tr : List Action) (st : OptState)
    (hf : g.fork_ok = true) (hs : g.setup_ok = true) :
    runTail g tr st =
      (tr ++ [.forkCall, .setupEvents true]
        ++ (if 0 < st.verbose then [.printAttr] else [])
        ++ (measureLoop g st.no_aggr g.ticks 0 (attach g st.el)).1, 0) := by
  simp [runTail, hf, hs]

/-- The tail of the run issues no parse call: any parse action in its
trace was already in the prefix. -/
lemma runTail_parse_mem (g : Oracles) (tr : List Action) (st : OptState) (s : String)
    (h : Action.parseEvents s ∈ (runTail g tr st).1) :
    Action.parseEvents s ∈ tr := by
  cases hf : g.fork_ok with
  | false =>
    rw [runTail_fork_fail g tr st hf] at h
    simp at h
    exact h
  | true =>
    cases hs : g.setup_ok with
    | false =>
      rw [runTail_setup_fail g tr st hf hs] at h
      simp at h
      exact h
    | true =>
      rw [runTail_ok g tr st hf hs] at h
      rcases List.mem_append.mp h with h2 | h2
      · rcases List.mem_append.mp h2 with h3 | h3
        · rcases List.mem_append.mp h3 with h4 | h4
          · exact h4
          · simp at h4
        · revert h3
          split <;> intro h3 <;> simp at h3
      · rcases measureLoop_actions g st.no_aggr g.ticks 0 (attach g st.el) _ h2 with h' | ⟨o, h'⟩ <;> simp at h'

/-- The trace of the option loop contains no measurement, attachment,
fork or message action. -/
lemma processOpts_no_measure (g : Oracles) (opts : List Opt) (st : OptState) :
    Action.readAll ∉ (processOpts g opts st).1 ∧
    (∀ o, Action.printed o ∉ (processOpts g opts st).1) ∧
    (∀ ok, Action.setupEvents ok ∉ (processOpts g opts st).1) ∧
    Action.forkCall ∉ (processOpts g opts st).1 ∧
    (∀ s, Action.message s ∉ (processOpts g opts st).1) := by
  refine ⟨fun hm => ?_, fun o hm => ?_, fun ok hm => ?_, fun hm => ?_, fun s hm => ?_⟩ <;>
    rcases processOpts_actions g opts st _ hm with ⟨s', h⟩ | h <;> simp at h

lemma runMain_opts_fail (g : Oracles) (opts : List Opt) (b : Bool)
    (h : (processOpts g opts initState).2 = none) :
    runMain g opts b = ((processOpts g opts initState).1, 1) := by
  simp only [runMain, h]

lemma runMain_no_target (g : Oracles) (opts : List Opt) (b : Bool) (st : OptState)
    (h : (processOpts g opts initState).2 = some st)
    (hmsg : (!b && !st.measure_all) = true) :
    runMain g opts b =
      ((processOpts g opts initState).1 ++ [.message "Specify command or -a"], 1) := by
  simp only [runMain, h, hmsg]
  simp

lemma runMain_default_parse_fail (g : Oracles) (opts : List Opt) (b : Bool) (st : OptState)
    (ev : String) (h : (processOpts g opts initState).2 = some st)
    (hmsg : (!b && !st.measure_all) = false)
    (hev : st.events = some ev) (hpe : g.parse ev = none) :
    runMain g opts b = ((processOpts g opts initState).1 ++ [.parseEvents ev], 1) := by
  simp only [runMain, h, hmsg, hev, hpe]
  simp

lemma runMain_default_parse_ok (g : Oracles) (opts : List Opt) (b : Bool) (st : OptState)
    (ev : String) (evs : List EventDef) (h : (processOpts g opts initState).2 = some st)
    (hmsg : (!b && !st.measure_all) = false)
    (hev : st.events = some ev) (hpe : g.parse ev = some evs) :
    runMain g opts b =
      runTail g ((processOpts g opts initState).1 ++ [.parseEvents ev])
        { st with el := st.el ++ evs, events := none } := by
  simp only [runMain, h, hmsg, hev, hpe]
  simp

lemma runMain_no_default (g : Oracles) (opts : List Opt) (b : Bool) (st : OptState)
    (h : (processOpts g opts initState).2 = some st)
    (hmsg : (!b && !st.measure_all) = false)
    (hev : st.events = none) :
    runMain g opts b = runTail g (processOpts g opts initState).1 st := by
  simp only [runMain, h, hmsg, hev]
  simp

/-- A concrete environment oracle for the witnesses: parsing fails exactly
on the token "bad"; two CPU slots with CPU 1 masked out; fork and setup
succeed; no alarm ticks; a fixed kernel counter state. -/
def gEx : Oracles :=
  { parse := fun s => if s = "bad" then none else some [(s, none)],
    ncpus := 2,
    fds := fun _ ci => if ci = 0 then 3 else -1,
    setup_ok := true,
    fork_ok := true,
    ticks := 0,
    kern := fun _ _ _ => (100, 10, 10) }

/-- The same oracle with a failing `setup_events_cpumask`. -/
def gBad : Oracles := { gEx with setup_ok := false }

/-- C4: whenever the run issues a parse call that the parser rejects
(`parse_events` returns a negative value), the program terminates with
exit status 1 and `setup_events_cpumask` is never reached, so no counter
handle is ever opened. -/
theorem jestat_parse_fail_aborts (g : Oracles) (opts : List Opt) (b : Bool) (a : String)
    (hfail : g.parse a = none)
    (hmem : Action.parseEvents a ∈ (runMain g opts b).1) :
    (runMain g opts b).2 = 1 ∧ ∀ ok, Action.setupEvents ok ∉ (runMain g opts b).1 := by
  obtain ⟨_, _, hnosetup, _, _⟩ := processOpts_no_measure g opts initState
  cases hp2 : (processOpts g opts initState).2 with
  | none =>
    rw [runMain_opts_fail g opts b hp2]
    exact ⟨rfl, hnosetup⟩
  | some st =>
    cases hmsg : (!b && !st.measure_all) with
    | true =>
      rw [runMain_no_target g opts b st hp2 hmsg]
      refine ⟨rfl, fun ok hs => ?_⟩
      rcases List.mem_append.mp hs with h | h
      · exact hnosetup ok h
      · simp at h
    | false =>
      cases hev : st.events with
      | some ev =>
        cases hpe : g.parse ev with
        | none =>
          rw [runMain_default_parse_fail g opts b st ev hp2 hmsg hev hpe]
          refine ⟨rfl, fun ok hs => ?_⟩
          rcases List.mem_append.mp hs with h | h
          · exact hnosetup ok h
          · simp at h
        | some evs =>
          exfalso
          rw [runMain_default_parse_ok g opts b st ev evs hp2 hmsg hev hpe] at hmem
          have hpm := runTail_parse_mem _ _ _ _ hmem
          rcases List.mem_append.mp hpm with h | h
          · have := processOpts_parses_ok g opts initState st hp2 a h
            rw [hfail] at this
            simp at this
          · have ha : a = ev := by simpa using h
            rw [ha, hpe] at hfail
            cases hfail
      | none =>
        exfalso
        rw [runMain_no_default g opts b st hp2 hmsg hev] at hmem
        have hpm := runTail_parse_mem _ _ _ _ hmem
        have := processOpts_parses_ok g opts initState st hp2 a hpm
        rw [hfail] at this
        simp at this

theorem jestat_parse_fail_aborts_w :
    gEx.parse "bad" = none ∧
      Action.parseEvents "bad" ∈ (runMain gEx [Opt.oe "bad"] true).1 ∧
      ((runMain gEx [Opt.oe "bad"] true).2 = 1 ∧
       ∀ ok, Action.setupEvents ok ∉ (runMain gEx [Opt.oe "bad"] true).1) :=
  ⟨by decide, by decide,
   jestat_parse_fail_aborts gEx [Opt.oe "bad"] true "bad" (by decide) (by decide)⟩

/-- C5: when attachment fails (`setup_events_cpumask` returns a negative
value), the run exits with status 1 and performs no `read_all_events` call
and no data printing — the measurement is aborted whole, never partial. -/
theorem jestat_setup_fail_aborts (g : Oracles) (opts : List Opt) (b : Bool)
    (hsetup : g.setup_ok = false) :
    (runMain g opts b).2 = 1 ∧ Action.readAll ∉ (runMain g opts b).1 ∧
      ∀ o, Action.printed o ∉ (runMain g opts b).1 := by
  obtain ⟨hread, hprint, _, _, _⟩ := processOpts_no_measure g opts initState
  cases hp2 : (processOpts g opts initState).2 with
  | none =>
    rw [runMain_opts_fail g opts b hp2]
    exact ⟨rfl, hread, hprint⟩
  | some st =>
    cases hmsg : (!b && !st.measure_all) with
    | true =>
      rw [runMain_no_target g opts b st hp2 hmsg]
      refine ⟨rfl, fun hm => ?_, fun o hm => ?_⟩
      · rcases List.mem_append.mp hm with h | h
        · exact hread h
        · simp at h
      · rcases List.mem_append.mp hm with h | h
        · exact hprint o h
        · simp at h
    | false =>
      have htail : ∀ (tr : List Action) (st' : OptState),
          Action.readAll ∉ tr → (∀ o, Action.printed o ∉ tr) →
          (runTail g tr st').2 = 1 ∧ Action.readAll ∉ (runTail g tr st').1 ∧
            ∀ o, Action.printed o ∉ (runTail g tr st').1 := by
        intro tr st' h1 h2
        cases hf : g.fork_ok with
        | false =>
          rw [runTail_fork_fail g tr st' hf]
          refine ⟨rfl, fun hm => ?_, fun o hm => ?_⟩
          · rcases List.mem_append.mp hm with h | h
            · exact h1 h
            · simp at h
          · rcases List.mem_append.mp hm with h | h
            · exact h2 o h
            · simp at h
        | true =>
          rw [runTail_setup_fail g tr st' hf hsetup]
          refine ⟨rfl, fun hm => ?_, fun o hm => ?_⟩
          · rcases List.mem_append.mp hm with h | h
            · exact h1 h
            · simp at h
          · rcases List.mem_append.mp hm with h | h
            · exact h2 o h
            · simp at h
      cases hev : st.events with
      | some ev =>
        cases hpe : g.parse ev with
        | none =>
          rw [runMain_default_parse_fail g opts b st ev hp2 hmsg hev hpe]
          refine ⟨rfl, fun hm => ?_, fun o hm => ?_⟩
          · rcases List.mem_append.mp hm with h | h
            · exact hread h
            · simp at h
          · rcases List.mem_append.mp hm with h | h
            · exact hprint o h
            · simp at h
        | some evs =>
          rw [runMain_default_parse_ok g opts b st ev evs hp2 hmsg hev hpe]
          refine htail _ _ (fun hm => ?_) (fun o hm => ?_)
          · rcases List.mem_append.mp hm with h | h
            · exact hread h
            · simp at h
          · rcases List.mem_append.mp hm with h | h
            · exact hprint o h
            · simp at h
      | none =>
        rw [runMain_no_default g opts b st hp2 hmsg hev]
        exact htail _ _ hread hprint

theorem jestat_setup_fail_aborts_w :
    gBad.setup_ok = false ∧
      ((runMain gBad [Opt.oa] false).2 = 1 ∧
       Action.readAll ∉ (runMain gBad [Opt.oa] false).1 ∧
       ∀ o, Action.printed o ∉ (runMain gBad [Opt.oa] false).1) :=
  ⟨rfl, jestat_setup_fail_aborts gBad [Opt.oa] false rfl⟩

/-- Trace shape: either a run never reads, or its trace splits at a
successful `setup_events_cpumask` with all reads after it. -/
lemma runMain_shape (g : Oracles) (opts : List Opt) (b : Bool) :
    Action.readAll ∉ (runMain g opts b).1 ∨
    ∃ pre rest, (runMain g opts b).1 = pre ++ Action.setupEvents true :: rest ∧
      Action.readAll ∉ pre := by
  obtain ⟨hread, _, _, hfork, _⟩ := processOpts_no_measure g opts initState
  cases hp2 : (processOpts g opts initState).2 with
  | none =>
    rw [runMain_opts_fail g opts b hp2]
    exact Or.inl hread
  | some st =>
    cases hmsg : (!b && !st.measure_all) with
    | true =>
      rw [runMain_no_target g opts b st hp2 hmsg]
      refine Or.inl fun hm => ?_
      rcases List.mem_append.mp hm with h | h
      · exact hread h
      · simp at h
    | false =>
      have htail : ∀ (tr : List Action) (st' : OptState), Action.readAll ∉ tr →
          Action.readAll ∉ (runTail g tr st').1 ∨
          ∃ pre rest, (runTail g tr st').1 = pre ++ Action.setupEvents true :: rest ∧
            Action.readAll ∉ pre := by
        intro tr st' h1
        cases hf : g.fork_ok with
        | false =>
          rw [runTail_fork_fail g tr st' hf]
          refine Or.inl fun hm => ?_
          rcases List.mem_append.mp hm with h | h
          · exact h1 h
          · simp at h
        | true =>
          cases hs : g.setup_ok with
          | false =>
            rw [runTail_setup_fail g tr st' hf hs]
            refine Or.inl fun hm => ?_
            rcases List.mem_append.mp hm with h | h
            · exact h1 h
            · simp at h
          | true =>
            rw [runTail_ok g tr st' hf hs]
            refine Or.inr ⟨tr ++ [Action.forkCall],
              (if 0 < st'.verbose then [Action.printAttr] else [])
                ++ (measureLoop g st'.no_aggr g.ticks 0 (attach g st'.el)).1,
              by simp, fun hm => ?_⟩
            rcases List.mem_append.mp hm with h | h
            · exact h1 h
            · simp at h
      cases hev : st.events with
      | some ev =>
        cases hpe : g.parse ev with
        | none =>
          rw [runMain_default_parse_fail g opts b st ev hp2 hmsg hev hpe]
          refine Or.inl fun hm => ?_
          rcases List.mem_append.mp hm with h | h
          · exact hread h
          · simp at h
        | some evs =>
          rw [runMain_default_parse_ok g opts b st ev evs hp2 hmsg hev hpe]
          refine htail _ _ fun hm => ?_
          rcases List.mem_append.mp hm with h | h
          · exact hread h
          · simp at h
      | none =>
        rw [runMain_no_default g opts b st hp2 hmsg hev]
        exact htail _ _ hread

/-- C6: in every run, every `read_all_events` action happens strictly
after a successful `setup_events_cpumask`: opening of all handles precedes
every read. -/
theorem jestat_read_after_setup (g : Oracles) (opts : List Opt) (b : Bool) (n : Nat)
    (hn : (runMain g opts b).1[n]? = some Action.readAll) :
    ∃ m, m < n ∧ (runMain g opts b).1[m]? = some (Action.setupEvents true) := by
  rcases runMain_shape g opts b with hnone | ⟨pre, rest, htr, hpre⟩
  · exfalso
    obtain ⟨hlt, hget⟩ := List.getElem?_eq_some_iff.mp hn
    exact hnone (hget ▸ List.getElem_mem hlt)
  · rw [htr] at hn
    rcases Nat.lt_trichotomy n pre.length with hlt | heq | hgt
    · exfalso
      rw [List.getElem?_append, if_pos hlt] at hn
      obtain ⟨hl, hg⟩ := List.getElem?_eq_some_iff.mp hn
      exact hpre (hg ▸ List.getElem_mem hl)
    · exfalso
      rw [List.getElem?_append_right (Nat.le_of_eq heq.symm)] at hn
      rw [heq, Nat.sub_self] at hn
      simp at hn
    · refine ⟨pre.length, hgt, ?_⟩
      rw [htr, List.getElem?_append_right (Nat.le_refl _), Nat.sub_self]
      simp

theorem jestat_read_after_setup_w :
    (runMain gEx [Opt.oa] false).1[3]? = some Action.readAll ∧
      ∃ m, m < 3 ∧ (runMain gEx [Opt.oa] false).1[m]? = some (Action.setupEvents true) :=
  ⟨by decide, jestat_read_after_setup gEx [Opt.oa] false 3 (by decide)⟩

/-- A trace with the diagnostic attribute dump removed. -/
def eraseAttr (tr : List Action) : List Action :=
  tr.filter (fun a => a != Action.printAttr)

/-- Appending `-v` to the command line only increments the verbose
counter in the option loop. -/
lemma processOpts_verbose (g : Oracles) (opts : List Opt) (st : OptState) :
    processOpts g (opts ++ [Opt.ov]) st =
      ((processOpts g opts st).1,
       (processOpts g opts st).2.map (fun s => { s with verbose := s.verbose + 1 })) := by
  induction opts generalizing st with
  | nil => simp [processOpts]
  | cons o rest ih =>
    cases o with
    | oe arg =>
      cases hp : g.parse arg with
      | none => simp [processOpts, hp]
      | some evs => simp [processOpts, hp, ih]
    | oa => simpa [processOpts] using ih _
    | oI n => simpa [processOpts] using ih _
    | oC m => simpa [processOpts] using ih _
    | oA => simpa [processOpts] using ih _
    | ov => simpa [processOpts] using ih _
    | obad => simp [processOpts]

/-- Incrementing the verbose counter leaves the run tail's exit status and
non-diagnostic actions unchanged; it at most inserts the attribute dump
right after the successful setup, before any read. -/
lemma runTail_verbose (g : Oracles) (tr : List Action) (st : OptState)
    (htr : Action.readAll ∉ tr) :
    eraseAttr (runTail g tr { st with verbose := st.verbose + 1 }).1
        = eraseAttr (runTail g tr st).1 ∧
    (runTail g tr { st with verbose := st.verbose + 1 }).2 = (runTail g tr st).2 ∧
    ((runTail g tr { st with verbose := st.verbose + 1 }).1 = (runTail g tr st).1 ∨
      ∃ pre rest, (runTail g tr st).1 = pre ++ rest ∧
        (runTail g tr { st with verbose := st.verbose + 1 }).1
          = pre ++ Action.printAttr :: rest ∧
        Action.readAll ∉ pre) := by
  cases hf : g.fork_ok with
  | false =>
    rw [runTail_fork_fail g tr _ hf, runTail_fork_fail g tr st hf]
    exact ⟨rfl, rfl, Or.inl rfl⟩
  | true =>
    cases hs : g.setup_ok with
    | false =>
      rw [runTail_setup_fail g tr _ hf hs, runTail_setup_fail g tr st hf hs]
      exact ⟨rfl, rfl, Or.inl rfl⟩
    | true =>
      rw [runTail_ok g tr _ hf hs, runTail_ok g tr st hf hs]
      cases hv : st.verbose with
      | zero =>
        have hv1 : (0 < st.verbose) = False := by simp [hv]
        have hv2 : (0 < st.verbose + 1) = True := by simp
        refine ⟨?_, rfl, Or.inr ⟨tr ++ [Action.forkCall, Action.setupEvents true],
          (measureLoop g st.no_aggr g.ticks 0 (attach g st.el)).1, ?_, ?_, ?_⟩⟩
        · simp [eraseAttr, hv1, hv2, List.filter_append]
        · simp [hv1]
        · simp [hv2]
        · intro hm
          rcases List.mem_append.mp hm with h | h
          · exact htr h
          · simp at h
      | succ k =>
        have hv1 : (0 < st.verbose) = True := by simp [hv]
        have hv2 : (0 < st.verbose + 1) = True := by simp
        refine ⟨by simp [hv1, hv2], rfl, Or.inl (by simp [hv1, hv2])⟩

/-- C8: verbose mode has no semantic effect: appending `-v` to the command
line leaves the exit status and every non-diagnostic action (parse calls,
fork, setup, reads, printed counter values) unchanged; at most it inserts
the one attribute-dump action, and only before any read occurs. -/
theorem jestat_verbose_no_effect (g : Oracles) (opts : List Opt) (b : Bool) :
    eraseAttr (runMain g (opts ++ [Opt.ov]) b).1 = eraseAttr (runMain g opts b).1 ∧
    (runMain g (opts ++ [Opt.ov]) b).2 = (runMain g opts b).2 ∧
    ((runMain g (opts ++ [Opt.ov]) b).1 = (runMain g opts b).1 ∨
      ∃ pre rest, (runMain g opts b).1 = pre ++ rest ∧
        (runMain g (opts ++ [Opt.ov]) b).1 = pre ++ Action.printAttr :: rest ∧
        Action.readAll ∉ pre) := by
  obtain ⟨hread, _, _, _, _⟩ := processOpts_no_measure g opts initState
  have hpv := processOpts_verbose g opts initState
  cases hp2 : (processOpts g opts initState).2 with
  | none =>
    have hp2v : (processOpts g (opts ++ [Opt.ov]) initState).2 = none := by
      rw [hpv, hp2]
      rfl
    rw [runMain_opts_fail g opts b hp2, runMain_opts_fail g (opts ++ [Opt.ov]) b hp2v, hpv]
    exact ⟨rfl, rfl, Or.inl rfl⟩
  | some st =>
    have hp2v : (processOpts g (opts ++ [Opt.ov]) initState).2
        = some { st with verbose := st.verbose + 1 } := by
      rw [hpv, hp2]
      rfl
    have htrv : (processOpts g (opts ++ [Opt.ov]) initState).1
        = (processOpts g opts initState).1 := by
      rw [hpv]
    cases hmsg : (!b && !st.measure_all) with
    | true =>
      rw [runMain_no_target g opts b st hp2 hmsg,
          runMain_no_target g (opts ++ [Opt.ov]) b _ hp2v hmsg, htrv]
      exact ⟨rfl, rfl, Or.inl rfl⟩
    | false =>
      cases hev : st.events with
      | some ev =>
        cases hpe : g.parse ev with
        | none =>
          rw [runMain_default_parse_fail g opts b st ev hp2 hmsg hev hpe,
              runMain_default_parse_fail g (opts ++ [Opt.ov]) b _ ev hp2v hmsg hev hpe, htrv]
          exact ⟨rfl, rfl, Or.inl rfl⟩
        | some evs =>
          rw [runMain_default_parse_ok g opts b st ev evs hp2 hmsg hev hpe,
              runMain_default_parse_ok g (opts ++ [Opt.ov]) b _ ev evs hp2v hmsg hev hpe, htrv]
          exact runTail_verbose g ((processOpts g opts initState).1 ++ [Action.parseEvents ev])
            { st with el := st.el ++ evs, events := none }
            (fun hm => by
              rcases List.mem_append.mp hm with h | h
              · exact hread h
              · simp at h)
      | none =>
        rw [runMain_no_default g opts b st hp2 hmsg hev,
            runMain_no_default g (opts ++ [Opt.ov]) b _ hp2v hmsg hev, htrv]
        exact runTail_verbose g (processOpts g opts initState).1 st hread

/-- The `-e` arguments of a command line, in order. -/
def oeArgs (opts : List Opt) : List String :=
  opts.filterMap (fun o => match o with | .oe a => some a | _ => none)

/-- The event-spec strings a trace passes to `parse_events`, in order. -/
def parseCalls (tr : List Action) : List String :=
  tr.filterMap (fun a => match a with | .parseEvents s => some s | _ => none)

lemma oeArgs_nil : oeArgs [] = [] := rfl

lemma oeArgs_cons_oe (a : String) (rest : List Opt) :
    oeArgs (Opt.oe a :: rest) = a :: oeArgs rest := rfl

lemma oeArgs_cons_oa (rest : List Opt) : oeArgs (Opt.oa :: rest) = oeArgs rest := rfl

lemma oeArgs_cons_oI (n : Nat) (rest : List Opt) : oeArgs (Opt.oI n :: rest) = oeArgs rest := rfl

lemma oeArgs_cons_oC (m : String) (rest : List Opt) :
    oeArgs (Opt.oC m :: rest) = oeArgs rest := rfl

lemma oeArgs_cons_oA (rest : List Opt) : oeArgs (Opt.oA :: rest) = oeArgs rest := rfl

lemma oeArgs_cons_ov (rest : List Opt) : oeArgs (Opt.ov :: rest) = oeArgs rest := rfl

lemma parseCalls_append (l1 l2 : List Action) :
    parseCalls (l1 ++ l2) = parseCalls l1 ++ parseCalls l2 :=
  List.filterMap_append _ _ _

lemma parseCalls_map (l : List String) : parseCalls (l.map Action.parseEvents) = l := by
  induction l with
  | nil => rfl
  | cons a t ih => simp [parseCalls] at ih ⊢; exact ih

/-- The run tail makes no parse call. -/
lemma parseCalls_runTail (g : Oracles) (tr : List Action) (st : OptState) :
    parseCalls (runTail g tr st).1 = parseCalls tr := by
  have hml : parseCalls (measureLoop g st.no_aggr g.ticks 0 (attach g st.el)).1 = [] := by
    refine List.filterMap_eq_nil_iff.mpr fun a ha => ?_
    rcases measureLoop_actions g st.no_aggr g.ticks 0 (attach g st.el) a ha with rfl | ⟨o, rfl⟩ <;> rfl
  cases hf : g.fork_ok with
  | false =>
    rw [runTail_fork_fail g tr st hf]
    simp [parseCalls, List.filterMap_append]
  | true =>
    cases hs : g.setup_ok with
    | false =>
      rw [runTail_setup_fail g tr st hf hs]
      simp [parseCalls, List.filterMap_append]
    | true =>
      rw [runTail_ok g tr st hf hs]
      simp only [parseCalls, List.filterMap_append] at hml ⊢
      rw [hml]
      split <;> simp

/-- When the option loop sees no unknown option and every `-e` spec
parses, it completes, emitting exactly one parse call per `-e` in order;
the resulting state appends the parsed definitions in order, clears the
default spec exactly when at least one `-e` occurred, and records `-a`. -/
lemma processOpts_ok (g : Oracles) :
    ∀ (opts : List Opt) (st : OptState),
      Opt.obad ∉ opts →
      (∀ s ∈ oeArgs opts, (g.parse s).isSome) →
      ∃ st', processOpts g opts st = ((oeArgs opts).map Action.parseEvents, some st') ∧
        st'.el = st.el ++ (oeArgs opts).flatMap (fun s => (g.parse s).getD []) ∧
        st'.events = (if oeArgs opts = [] then st.events else none) ∧
        st'.measure_all = (st.measure_all || decide (Opt.oa ∈ opts)) := by
  intro opts
  induction opts with
  | nil =>
    intro st _ _
    exact ⟨st, by simp [processOpts, oeArgs], by simp [oeArgs], by simp [oeArgs], by simp⟩
  | cons o rest ih =>
    intro st hbad hok
    cases o with
    | oe arg =>
      have hargok : (g.parse arg).isSome :=
        hok arg (by rw [oeArgs_cons_oe]; exact List.mem_cons_self _ _)
      obtain ⟨evs, hp⟩ := Option.isSome_iff_exists.mp hargok
      obtain ⟨st', h1, h2, h3, h4⟩ := ih { st with el := st.el ++ evs, events := none }
        (fun hm => hbad (List.mem_cons_of_mem _ hm))
        (fun s hs => hok s (by rw [oeArgs_cons_oe]; exact List.mem_cons_of_mem _ hs))
      refine ⟨st', ?_, ?_, ?_, ?_⟩
      · rw [oeArgs_cons_oe]
        simp [processOpts, hp, h1]
      · rw [h2, oeArgs_cons_oe]
        simp [hp]
      · rw [h3, oeArgs_cons_oe]
        simp
      · rw [h4]
        simp
    | oa =>
      obtain ⟨st', h1, h2, h3, h4⟩ := ih { st with measure_all := true }
        (fun hm => hbad (List.mem_cons_of_mem _ hm)) (fun s hs => hok s hs)
      refine ⟨st', ?_, h2, h3, ?_⟩
      · simpa [processOpts, oeArgs_cons_oa, oeArgs_cons_oI, oeArgs_cons_oC, oeArgs_cons_oA, oeArgs_cons_ov] using h1
      · rw [h4]
        simp
    | oI n =>
      obtain ⟨st', h1, h2, h3, h4⟩ := ih { st with interval := n }
        (fun hm => hbad (List.mem_cons_of_mem _ hm)) (fun s hs => hok s hs)
      refine ⟨st', ?_, h2, h3, ?_⟩
      · simpa [processOpts, oeArgs_cons_oa, oeArgs_cons_oI, oeArgs_cons_oC, oeArgs_cons_oA, oeArgs_cons_ov] using h1
      · rw [h4]
        simp
    | oC m =>
      obtain ⟨st', h1, h2, h3, h4⟩ := ih { st with cpumask := some m }
        (fun hm => hbad (List.mem_cons_of_mem _ hm)) (fun s hs => hok s hs)
      refine ⟨st', ?_, h2, h3, ?_⟩
      · simpa [processOpts, oeArgs_cons_oa, oeArgs_cons_oI, oeArgs_cons_oC, oeArgs_cons_oA, oeArgs_cons_ov] using h1
      · rw [h4]
        simp
    | oA =>
      obtain ⟨st', h1, h2, h3, h4⟩ := ih { st with no_aggr := true }
        (fun hm => hbad (List.mem_cons_of_mem _ hm)) (fun s hs => hok s hs)
      refine ⟨st', ?_, h2, h3, ?_⟩
      · simpa [processOpts, oeArgs_cons_oa, oeArgs_cons_oI, oeArgs_cons_oC, oeArgs_cons_oA, oeArgs_cons_ov] using h1
      · rw [h4]
        simp
    | ov =>
      obtain ⟨st', h1, h2, h3, h4⟩ := ih { st with verbose := st.verbose + 1 }
        (fun hm => hbad (List.mem_cons_of_mem _ hm)) (fun s hs => hok s hs)
      refine ⟨st', ?_, h2, h3, ?_⟩
      · simpa [processOpts, oeArgs_cons_oa, oeArgs_cons_oI, oeArgs_cons_oC, oeArgs_cons_oA, oeArgs_cons_ov] using h1
      · rw [h4]
        simp
    | obad =>
      exact absurd (List.mem_cons_self _ _) hbad

/-- C9: with no `-e` option the program parses exactly the default
specification "instructions,cpu-cycles,cache-misses,cache-references";
with at least one `-e` the default is not parsed at all (the parse calls
are exactly the `-e` arguments, in command-line order) and each `-e`
appends its parsed events to the same event list in order. -/
theorem jestat_default_events (g : Oracles) (opts : List Opt) (b : Bool)
    (hbad : Opt.obad ∉ opts)
    (htgt : b = true ∨ Opt.oa ∈ opts)
    (hok : ∀ s ∈ oeArgs opts, (g.parse s).isSome) :
    parseCalls (runMain g opts b).1 =
      (if oeArgs opts = [] then [defaultEvents] else oeArgs opts) ∧
    ∃ st', (processOpts g opts initState).2 = some st' ∧
      st'.el = (oeArgs opts).flatMap (fun s => (g.parse s).getD []) ∧
      st'.events = (if oeArgs opts = [] then some defaultEvents else none) := by
  obtain ⟨st', hres, hel, hevs, hma⟩ := processOpts_ok g opts initState hbad hok
  have hp1 : (processOpts g opts initState).1 = (oeArgs opts).map Action.parseEvents := by
    rw [hres]
  have hp2 : (processOpts g opts initState).2 = some st' := by
    rw [hres]
  have hmsg : (!b && !st'.measure_all) = false := by
    rcases htgt with rfl | hoa
    · simp
    · rw [hma]
      simp [hoa]
  refine ⟨?_, st', hp2, by simpa [initState] using hel, by simpa [initState] using hevs⟩
  by_cases hoe : oeArgs opts = []
  · have hev : st'.events = some defaultEvents := by
      rw [hevs]
      simp [hoe, initState]
    cases hpe : g.parse defaultEvents with
    | none =>
      rw [runMain_default_parse_fail g opts b st' defaultEvents hp2 hmsg hev hpe,
          parseCalls_append, hp1, parseCalls_map, hoe]
      rfl
    | some evs =>
      rw [runMain_default_parse_ok g opts b st' defaultEvents evs hp2 hmsg hev hpe,
          parseCalls_runTail, parseCalls_append, hp1, parseCalls_map, hoe]
      rfl
  · have hev : st'.events = none := by
      rw [hevs]
      simp [hoe]
    rw [runMain_no_default g opts b st' hp2 hmsg hev, parseCalls_runTail, hp1, parseCalls_map]
    simp [hoe]

theorem jestat_default_events_w :
    Opt.obad ∉ [Opt.oe "a", Opt.oe "b", Opt.oa] ∧
      (false = true ∨ Opt.oa ∈ [Opt.oe "a", Opt.oe "b", Opt.oa]) ∧
      (∀ s ∈ oeArgs [Opt.oe "a", Opt.oe "b", Opt.oa], (gEx.parse s).isSome) ∧
      (parseCalls (runMain gEx [Opt.oe "a", Opt.oe "b", Opt.oa] false).1 =
        (if oeArgs [Opt.oe "a", Opt.oe "b", Opt.oa] = [] then [defaultEvents]
         else oeArgs [Opt.oe "a", Opt.oe "b", Opt.oa]) ∧
       ∃ st', (processOpts gEx [Opt.oe "a", Opt.oe "b", Opt.oa] initState).2 = some st' ∧
         st'.el = (oeArgs [Opt.oe "a", Opt.oe "b", Opt.oa]).flatMap
           (fun s => (gEx.parse s).getD []) ∧
         st'.events = (if oeArgs [Opt.oe "a", Opt.oe "b", Opt.oa] = [] then some defaultEvents
           else none)) :=
  ⟨by decide, by decide, by decide,
   jestat_default_events gEx [Opt.oe "a", Opt.oe "b", Opt.oa] false
     (by decide) (by decide) (by decide)⟩

/-- C10: with neither a program argument nor `-a`, the run prints
"Specify command or -a" and exits with status 1 before forking a child or
opening any counter handle. -/
theorem jestat_no_target_exit (g : Oracles) (opts : List Opt)
    (hbad : Opt.obad ∉ opts)
    (hoa : Opt.oa ∉ opts)
    (hok : ∀ s ∈ oeArgs opts, (g.parse s).isSome) :
    (runMain g opts false).2 = 1 ∧
    Action.message "Specify command or -a" ∈ (runMain g opts false).1 ∧
    Action.forkCall ∉ (runMain g opts false).1 ∧
    ∀ ok, Action.setupEvents ok ∉ (runMain g opts false).1 := by
  obtain ⟨st', hres, _, _, hma⟩ := processOpts_ok g opts initState hbad hok
  have hp2 : (processOpts g opts initState).2 = some st' := by
    rw [hres]
  have hmsg : (!false && !st'.measure_all) = true := by
    rw [hma]
    simp [hoa, initState]
  rw [runMain_no_target g opts false st' hp2 hmsg]
  obtain ⟨_, _, hnosetup, hnofork, _⟩ := processOpts_no_measure g opts initState
  refine ⟨rfl, List.mem_append.mpr (Or.inr (by simp)), fun hm => ?_, fun ok hm => ?_⟩
  · rcases List.mem_append.mp hm with h | h
    · exact hnofork h
    · simp at h
  · rcases List.mem_append.mp hm with h | h
    · exact hnosetup ok h
    · simp at h

theorem jestat_no_target_exit_w :
    Opt.obad ∉ [Opt.oe "x"] ∧ Opt.oa ∉ [Opt.oe "x"] ∧
      (∀ s ∈ oeArgs [Opt.oe "x"], (gEx.parse s).isSome) ∧
      ((runMain gEx [Opt.oe "x"] false).2 = 1 ∧
       Action.message "Specify command or -a" ∈ (runMain gEx [Opt.oe "x"] false).1 ∧
       Action.forkCall ∉ (runMain gEx [Opt.oe "x"] false).1 ∧
       ∀ ok, Action.setupEvents ok ∉ (runMain gEx [Opt.oe "x"] false).1) :=
  ⟨by decide, by decide, by decide,
   jestat_no_target_exit gEx [Opt.oe "x"] (by decide) (by decide) (by decide)⟩

end Jestat
